import Mathlib

/-!
Verification of the `FuturesUnordered` poll driver
(src/futures-util/src/stream/futures_unordered/mod.rs).

The state of a `FuturesUnordered` collection is embedded shallowly:
records live in an arena indexed by `Nat`, the all-list is the list of
linked record ids (head first), and the ready-to-run queue is the list of
completed insertions in dequeue order.  Member computations are modelled
as scripts describing the observable behaviour of each successive poll.
-/

/-- Modelled from the spec: the observable behaviour of a single call to a
member computation poll function, which is an external collaborator
(`poll(context) -> Pending | Ready(value)`, and it may exit abnormally).
Each outcome may additionally invoke the per-record waker synchronously
during the poll call itself. -/
inductive PollStep (α : Type) where
  | pending (selfWake : Bool)
  | ready (selfWake : Bool) (value : α)
  | panics (selfWake : Bool)
deriving DecidableEq

/-- Modelled from the spec: a member computation.  `steps k` is the
behaviour of its k-th poll and `polls` counts the polls performed so far. -/
structure Fut (α : Type) where
  steps : Nat → PollStep α
  polls : Nat

/-- Advancing a computation after one poll (in-place mutation of the
future inside its node). -/
def advanceFut {α : Type} (f : Fut α) : Fut α := ⟨f.steps, f.polls + 1⟩

/-- One Member Record (`Node` in node.rs): the computation slot, the
`queued` flag and the strong reference count of the record.  The all-list
and ready-queue links are represented by the lists of the containing
state. -/
structure Node (α : Type) where
  future : Option (Fut α)
  queued : Bool
  refs : Nat

/-- The collection state: the record arena, the all-list (`head_all`,
head first), the member count `len`, the ready-to-run queue (front is the
consumer end), a flag recording a producer whose insertion is still in
flight, and the next fresh record id. -/
structure FuturesUnordered (α : Type) where
  nodes : Nat → Option (Node α)
  head_all : List Nat
  len : Nat
  readyQueue : List Nat
  midInsert : Bool
  nextId : Nat

namespace FuturesUnordered

variable {α : Type}

/-- Replace the record stored at `id`. -/
def setNode (st : FuturesUnordered α) (id : Nat) (n : Node α) : FuturesUnordered α :=
  { st with nodes := fun j => if j = id then some n else st.nodes j }

/-- Free the record stored at `id`. -/
def removeNode (st : FuturesUnordered α) (id : Nat) : FuturesUnordered α :=
  { st with nodes := fun j => if j = id then none else st.nodes j }

/-- Dropping one strong reference to a record (dropping an `Arc<Node>`):
the record is freed when its count reaches zero. -/
def decRef (st : FuturesUnordered α) (id : Nat) : FuturesUnordered α :=
  match st.nodes id with
  | none => st
  | some n =>
      if n.refs ≤ 1 then removeNode st id
      else setNode st id { n with refs := n.refs - 1 }

/-- `FuturesUnordered::new` (mod.rs lines 84-106): the empty collection.
The stub sentinel of the ready-to-run queue is internal to the queue and
never surfaces, so it is not represented in the arena. -/
def new : FuturesUnordered α :=
  { nodes := fun _ => none, head_all := [], len := 0, readyQueue := [],
    midInsert := false, nextId := 0 }

/-- `FuturesUnordered::len` (mod.rs lines 119-121). -/
def lenOf (st : FuturesUnordered α) : Nat := st.len

/-- `FuturesUnordered::is_empty` (mod.rs lines 124-126). -/
def is_empty (st : FuturesUnordered α) : Bool := st.len == 0

/-- `FuturesUnordered::link` (mod.rs lines 207-220): insert a record at
the head of the all-list and increment `len`. -/
def link (st : FuturesUnordered α) (id : Nat) : FuturesUnordered α :=
  { st with head_all := id :: st.head_all, len := st.len + 1 }

/-- `FuturesUnordered::unlink` (mod.rs lines 226-244): splice a record
out of the all-list and decrement `len`. -/
def unlink (st : FuturesUnordered α) (id : Nat) : FuturesUnordered α :=
  { st with head_all := st.head_all.erase id, len := st.len - 1 }

/-- Modelled from the spec: `ReadyToRunQueue::enqueue`
(ready_to_run_queue.rs is not under src/).  The producer appends the
record at the producer end; the consumer dequeues from the front. -/
def enqueue (st : FuturesUnordered α) (id : Nat) : FuturesUnordered α :=
  { st with readyQueue := st.readyQueue ++ [id] }

/-- Modelled from the spec: the per-member waker (node.rs is not under
src/).  If `queued` is already set this is a no-op; otherwise it sets
`queued` and enqueues the record into the ready-to-run queue. -/
def wake (st : FuturesUnordered α) (id : Nat) : FuturesUnordered α :=
  match st.nodes id with
  | none => st
  | some n =>
      if n.queued then st
      else enqueue (setNode st id { n with queued := true }) id

/-- `FuturesUnordered::push` (mod.rs lines 134-154): allocate a record
holding the computation with `queued = true` and one strong reference,
link it at the head of the all-list, then unconditionally enqueue it.
The submitted computation is stored untouched: no poll happens here. -/
def push (f : Fut α) (st : FuturesUnordered α) : FuturesUnordered α :=
  let id := st.nextId
  let st1 : FuturesUnordered α :=
    { st with
      nodes := fun j => if j = id then some ⟨some f, true, 1⟩ else st.nodes j,
      nextId := id + 1 }
  enqueue (link st1 id) id

/-- `FuturesUnordered::release_node` (mod.rs lines 173-205): swap the
`queued` flag to `true` remembering its previous value, drop the held
computation, and then either transfer the reference count to the
ready-to-run queue (`mem::forget`, when the record was still enqueued) or
release it. -/
def release_node (st : FuturesUnordered α) (id : Nat) : FuturesUnordered α :=
  match st.nodes id with
  | none => st
  | some n =>
      let prev := n.queued
      let st1 := setNode st id { n with queued := true, future := none }
      if prev then st1 else decRef st1 id

/-- The three outcomes of the single-consumer dequeue
(ready_to_run_queue.rs). -/
inductive Dequeue where
  | Empty
  | Inconsistent
  | Data (id : Nat)
deriving DecidableEq

/-- Modelled from the spec: `ReadyToRunQueue::dequeue`
(ready_to_run_queue.rs is not under src/).  Completed insertions are
dequeued front first; once they are drained, a producer still mid-insert
(`midInsert`) is observed as `Inconsistent`, and otherwise the queue is
`Empty`.  The stub sentinel retry is internal to the queue and never
yields the stub to the poll driver. -/
def dequeue (st : FuturesUnordered α) : Dequeue × FuturesUnordered α :=
  match st.readyQueue with
  | [] => (if st.midInsert then Dequeue.Inconsistent else Dequeue.Empty, st)
  | id :: rest => (Dequeue.Data id, { st with readyQueue := rest })

/-- The result of one poll of the whole collection:
`ready none` is `Poll::Ready(None)` (exhausted), `ready (some v)` is a
produced value, `pending` is `Poll::Pending`, and `panicked` records an
abnormal exit propagating out of `poll_next`. -/
inductive PollRes (α : Type) where
  | ready (v : Option α)
  | pending
  | panicked
deriving DecidableEq

/-- The state a live dequeued record is polled in: popped from the ready
queue (`st1`), unlinked from the all-list with `len` decremented, and
with its `queued` flag cleared strictly before the poll; the slot holds
the advanced computation (its poll mutates it in place). -/
def prePoll (st1 : FuturesUnordered α) (id : Nat) (n : Node α) (f : Fut α) :
    FuturesUnordered α :=
  setNode (unlink st1 id) id { n with queued := false, future := some (advanceFut f) }

/-- Outcome of one iteration of the poll driver loop: either the loop
returns (`done`, with the result, whether the task rewoke itself, and the
final state) or it continues with a new state (`again`). -/
inductive StepOut (α : Type) where
  | done (res : PollRes α) (selfWoke : Bool) (st : FuturesUnordered α)
  | again (st : FuturesUnordered α)

/-- One iteration of the loop inside `Stream::poll_next`
(mod.rs lines 256-380): dequeue; on `Empty` return exhausted or pending
according to `is_empty`; on `Inconsistent` rewake the current task and
return pending; on `Data` either discard a zombie record and continue,
or unlink it, clear `queued` (asserting it was set), poll the
computation, and relink on `Pending`, finalize and return the value on
`Ready`, or finalize and propagate on an abnormal exit (the `Bomb`). -/
def pollStep (st : FuturesUnordered α) : StepOut α :=
  match dequeue st with
  | (Dequeue.Empty, st1) =>
      StepOut.done
        (if st1.is_empty then PollRes.ready none else PollRes.pending) false st1
  | (Dequeue.Inconsistent, st1) => StepOut.done PollRes.pending true st1
  | (Dequeue.Data id, st1) =>
      match st1.nodes id with
      | none => StepOut.again st1
      | some n =>
          match n.future with
          | none => StepOut.again (decRef st1 id)
          | some f =>
              if n.queued = false then
                StepOut.done PollRes.panicked false
                  (decRef (setNode (unlink st1 id) id { n with queued := false }) id)
              else
                let pre := prePoll st1 id n f
                match f.steps f.polls with
                | PollStep.pending w =>
                    StepOut.again (link (if w then wake pre id else pre) id)
                | PollStep.ready w v =>
                    StepOut.done (PollRes.ready (some v)) false
                      (release_node (if w then wake pre id else pre) id)
                | PollStep.panics w =>
                    StepOut.done PollRes.panicked false
                      (release_node (if w then wake pre id else pre) id)

/-- `Stream::poll_next` (mod.rs lines 250-381) with explicit fuel for the
loop: `none` means the loop has not returned within `fuel` iterations.
The second component of the returned triple records whether the driver
rewoke the current task (`cx.local_waker().wake()`). -/
def poll_next : Nat → FuturesUnordered α → Option (PollRes α × Bool × FuturesUnordered α)
  | 0, _ => none
  | fuel + 1, st =>
      match pollStep st with
      | StepOut.done res w st1 => some (res, w, st1)
      | StepOut.again st1 => poll_next fuel st1

/-- `FromIterator::from_iter` (mod.rs lines 420-428): fold `push` over
the sequence starting from `new`. -/
def from_iter (fs : List (Fut α)) : FuturesUnordered α :=
  fs.foldl (fun acc f => push f acc) new

/-- The `futures_unordered` constructor (mod.rs lines 440-446): collect,
that is `from_iter`. -/
def futures_unordered (fs : List (Fut α)) : FuturesUnordered α := from_iter fs

/-- A sequence of `push` calls on an existing collection. -/
def push_all (fs : List (Fut α)) (st : FuturesUnordered α) : FuturesUnordered α :=
  fs.foldl (fun acc f => push f acc) st

/-- Spec side of the bulk-construction claim, following the words of the
spec: starting from `new()` and calling `push` once per computation in
sequence order. -/
def pushSeq : List (Fut α) → FuturesUnordered α → FuturesUnordered α
  | [], st => st
  | f :: fs, st => pushSeq fs (push f st)

/-- Spec side of the bulk-construction claim. -/
def specBulk (fs : List (Fut α)) : FuturesUnordered α := pushSeq fs new

/-- No member computation ever performs a synchronous self-wakeup while
reporting Pending. -/
def NoSelfWake (st : FuturesUnordered α) : Prop :=
  ∀ id n f k, st.nodes id = some n → n.future = some f →
    f.steps k ≠ PollStep.pending true

/-- The structural invariant of a collection state, established by `new`
and preserved by `push` and by the poll driver. -/
structure WF (st : FuturesUnordered α) : Prop where
  lenEq : st.len = st.head_all.length
  fresh : ∀ j, st.nextId ≤ j → st.nodes j = none
  qNodup : st.readyQueue.Nodup
  qSome : ∀ id ∈ st.readyQueue, ∃ n, st.nodes id = some n ∧ n.queued = true
  qLinked : ∀ id ∈ st.readyQueue, ∀ n f, st.nodes id = some n →
    n.future = some f → id ∈ st.head_all
  aNodup : st.head_all.Nodup
  aSome : ∀ id ∈ st.head_all, ∃ n f, st.nodes id = some n ∧ n.future = some f

/-! Projection lemmas for the state combinators. -/

@[simp] lemma setNode_nodes (st : FuturesUnordered α) (id : Nat) (n : Node α) (j : Nat) :
    (setNode st id n).nodes j = if j = id then some n else st.nodes j := rfl

@[simp] lemma setNode_head_all (st : FuturesUnordered α) (id : Nat) (n : Node α) :
    (setNode st id n).head_all = st.head_all := rfl

@[simp] lemma setNode_len (st : FuturesUnordered α) (id : Nat) (n : Node α) :
    (setNode st id n).len = st.len := rfl

@[simp] lemma setNode_readyQueue (st : FuturesUnordered α) (id : Nat) (n : Node α) :
    (setNode st id n).readyQueue = st.readyQueue := rfl

@[simp] lemma setNode_midInsert (st : FuturesUnordered α) (id : Nat) (n : Node α) :
    (setNode st id n).midInsert = st.midInsert := rfl

@[simp] lemma setNode_nextId (st : FuturesUnordered α) (id : Nat) (n : Node α) :
    (setNode st id n).nextId = st.nextId := rfl

@[simp] lemma removeNode_nodes (st : FuturesUnordered α) (id j : Nat) :
    (removeNode st id).nodes j = if j = id then none else st.nodes j := rfl

@[simp] lemma removeNode_head_all (st : FuturesUnordered α) (id : Nat) :
    (removeNode st id).head_all = st.head_all := rfl

@[simp] lemma removeNode_len (st : FuturesUnordered α) (id : Nat) :
    (removeNode st id).len = st.len := rfl

@[simp] lemma removeNode_readyQueue (st : FuturesUnordered α) (id : Nat) :
    (removeNode st id).readyQueue = st.readyQueue := rfl

@[simp] lemma removeNode_midInsert (st : FuturesUnordered α) (id : Nat) :
    (removeNode st id).midInsert = st.midInsert := rfl

@[simp] lemma removeNode_nextId (st : FuturesUnordered α) (id : Nat) :
    (removeNode st id).nextId = st.nextId := rfl

@[simp] lemma link_nodes (st : FuturesUnordered α) (id : Nat) :
    (link st id).nodes = st.nodes := rfl

@[simp] lemma link_head_all (st : FuturesUnordered α) (id : Nat) :
    (link st id).head_all = id :: st.head_all := rfl

@[simp] lemma link_len (st : FuturesUnordered α) (id : Nat) :
    (link st id).len = st.len + 1 := rfl

@[simp] lemma link_readyQueue (st : FuturesUnordered α) (id : Nat) :
    (link st id).readyQueue = st.readyQueue := rfl

@[simp] lemma link_midInsert (st : FuturesUnordered α) (id : Nat) :
    (link st id).midInsert = st.midInsert := rfl

@[simp] lemma link_nextId (st : FuturesUnordered α) (id : Nat) :
    (link st id).nextId = st.nextId := rfl

@[simp] lemma unlink_nodes (st : FuturesUnordered α) (id : Nat) :
    (unlink st id).nodes = st.nodes := rfl

@[simp] lemma unlink_head_all (st : FuturesUnordered α) (id : Nat) :
    (unlink st id).head_all = st.head_all.erase id := rfl

@[simp] lemma unlink_len (st : FuturesUnordered α) (id : Nat) :
    (unlink st id).len = st.len - 1 := rfl

@[simp] lemma unlink_readyQueue (st : FuturesUnordered α) (id : Nat) :
    (unlink st id).readyQueue = st.readyQueue := rfl

@[simp] lemma unlink_midInsert (st : FuturesUnordered α) (id : Nat) :
    (unlink st id).midInsert = st.midInsert := rfl

@[simp] lemma unlink_nextId (st : FuturesUnordered α) (id : Nat) :
    (unlink st id).nextId = st.nextId := rfl

@[simp] lemma enqueue_nodes (st : FuturesUnordered α) (id : Nat) :
    (enqueue st id).nodes = st.nodes := rfl

@[simp] lemma enqueue_head_all (st : FuturesUnordered α) (id : Nat) :
    (enqueue st id).head_all = st.head_all := rfl

@[simp] lemma enqueue_len (st : FuturesUnordered α) (id : Nat) :
    (enqueue st id).len = st.len := rfl

@[simp] lemma enqueue_readyQueue (st : FuturesUnordered α) (id : Nat) :
    (enqueue st id).readyQueue = st.readyQueue ++ [id] := rfl

@[simp] lemma enqueue_midInsert (st : FuturesUnordered α) (id : Nat) :
    (enqueue st id).midInsert = st.midInsert := rfl

@[simp] lemma enqueue_nextId (st : FuturesUnordered α) (id : Nat) :
    (enqueue st id).nextId = st.nextId := rfl

@[simp] lemma decRef_head_all (st : FuturesUnordered α) (id : Nat) :
    (decRef st id).head_all = st.head_all := by
  unfold decRef
  split
  · rfl
  · split <;> rfl

@[simp] lemma decRef_len (st : FuturesUnordered α) (id : Nat) :
    (decRef st id).len = st.len := by
  unfold decRef
  split
  · rfl
  · split <;> rfl

@[simp] lemma decRef_readyQueue (st : FuturesUnordered α) (id : Nat) :
    (decRef st id).readyQueue = st.readyQueue := by
  unfold decRef
  split
  · rfl
  · split <;> rfl

@[simp] lemma decRef_midInsert (st : FuturesUnordered α) (id : Nat) :
    (decRef st id).midInsert = st.midInsert := by
  unfold decRef
  split
  · rfl
  · split <;> rfl

@[simp] lemma decRef_nextId (st : FuturesUnordered α) (id : Nat) :
    (decRef st id).nextId = st.nextId := by
  unfold decRef
  split
  · rfl
  · split <;> rfl

lemma decRef_nodes_ne (st : FuturesUnordered α) (id j : Nat) (hj : j ≠ id) :
    (decRef st id).nodes j = st.nodes j := by
  unfold decRef
  split
  · rfl
  · split <;> simp [hj]

@[simp] lemma wake_head_all (st : FuturesUnordered α) (id : Nat) :
    (wake st id).head_all = st.head_all := by
  unfold wake
  split
  · rfl
  · split <;> rfl

@[simp] lemma wake_len (st : FuturesUnordered α) (id : Nat) :
    (wake st id).len = st.len := by
  unfold wake
  split
  · rfl
  · split <;> rfl

@[simp] lemma wake_midInsert (st : FuturesUnordered α) (id : Nat) :
    (wake st id).midInsert = st.midInsert := by
  unfold wake
  split
  · rfl
  · split <;> rfl

@[simp] lemma wake_nextId (st : FuturesUnordered α) (id : Nat) :
    (wake st id).nextId = st.nextId := by
  unfold wake
  split
  · rfl
  · split <;> rfl

lemma wake_nodes_ne (st : FuturesUnordered α) (id j : Nat) (hj : j ≠ id) :
    (wake st id).nodes j = st.nodes j := by
  unfold wake
  split
  · rfl
  · split
    · rfl
    · simp [hj]

@[simp] lemma release_node_head_all (st : FuturesUnordered α) (id : Nat) :
    (release_node st id).head_all = st.head_all := by
  unfold release_node
  split
  · rfl
  · dsimp only
    split <;> simp

@[simp] lemma release_node_len (st : FuturesUnordered α) (id : Nat) :
    (release_node st id).len = st.len := by
  unfold release_node
  split
  · rfl
  · dsimp only
    split <;> simp

@[simp] lemma release_node_readyQueue (st : FuturesUnordered α) (id : Nat) :
    (release_node st id).readyQueue = st.readyQueue := by
  unfold release_node
  split
  · rfl
  · dsimp only
    split <;> simp

@[simp] lemma release_node_midInsert (st : FuturesUnordered α) (id : Nat) :
    (release_node st id).midInsert = st.midInsert := by
  unfold release_node
  split
  · rfl
  · dsimp only
    split <;> simp

@[simp] lemma release_node_nextId (st : FuturesUnordered α) (id : Nat) :
    (release_node st id).nextId = st.nextId := by
  unfold release_node
  split
  · rfl
  · dsimp only
    split <;> simp

lemma release_node_nodes_ne (st : FuturesUnordered α) (id j : Nat) (hj : j ≠ id) :
    (release_node st id).nodes j = st.nodes j := by
  unfold release_node
  split
  · rfl
  · dsimp only
    split
    · simp [hj]
    · rw [decRef_nodes_ne _ _ _ hj]
      simp [hj]

@[simp] lemma is_empty_iff (st : FuturesUnordered α) :
    st.is_empty = true ↔ st.len = 0 := by
  simp [is_empty]

@[simp] lemma push_nodes (f : Fut α) (st : FuturesUnordered α) (j : Nat) :
    (push f st).nodes j = if j = st.nextId then some ⟨some f, true, 1⟩ else st.nodes j := rfl

@[simp] lemma push_head_all (f : Fut α) (st : FuturesUnordered α) :
    (push f st).head_all = st.nextId :: st.head_all := rfl

@[simp] lemma push_len (f : Fut α) (st : FuturesUnordered α) :
    (push f st).len = st.len + 1 := rfl

@[simp] lemma push_readyQueue (f : Fut α) (st : FuturesUnordered α) :
    (push f st).readyQueue = st.readyQueue ++ [st.nextId] := rfl

@[simp] lemma push_midInsert (f : Fut α) (st : FuturesUnordered α) :
    (push f st).midInsert = st.midInsert := rfl

@[simp] lemma push_nextId (f : Fut α) (st : FuturesUnordered α) :
    (push f st).nextId = st.nextId + 1 := rfl

/-! The structural invariant holds for `new` and is preserved by `push`. -/

lemma wf_new : WF (new : FuturesUnordered α) := by
  constructor <;> simp [new]

lemma wf_push {st : FuturesUnordered α} (f : Fut α) (hwf : WF st) : WF (push f st) := by
  have hfr : st.nodes st.nextId = none := hwf.fresh _ le_rfl
  have hqmem : st.nextId ∉ st.readyQueue := by
    intro hm
    rcases hwf.qSome _ hm with ⟨n, hn, _⟩
    rw [hfr] at hn
    exact Option.noConfusion hn
  have hamem : st.nextId ∉ st.head_all := by
    intro hm
    rcases hwf.aSome _ hm with ⟨n, f', hn, _⟩
    rw [hfr] at hn
    exact Option.noConfusion hn
  refine ⟨?_, ?_, ?_, ?_, ?_, ?_, ?_⟩
  · simp [hwf.lenEq]
  · intro j hj
    simp only [push_nodes, push_nextId] at hj ⊢
    rw [if_neg (by omega)]
    exact hwf.fresh j (by omega)
  · simp [List.nodup_append, hwf.qNodup, hqmem]
  · intro j hj
    simp only [push_readyQueue, List.mem_append, List.mem_singleton] at hj
    rcases hj with hj | rfl
    · have hne : j ≠ st.nextId := fun h => hqmem (h ▸ hj)
      rcases hwf.qSome j hj with ⟨n, hn, hnq⟩
      exact ⟨n, by simp [hne, hn], hnq⟩
    · exact ⟨⟨some f, true, 1⟩, by simp, rfl⟩
  · intro j hj n' f' hn' hf'
    simp only [push_readyQueue, List.mem_append, List.mem_singleton] at hj
    simp only [push_head_all, List.mem_cons]
    rcases hj with hj | rfl
    · have hne : j ≠ st.nextId := fun h => hqmem (h ▸ hj)
      rw [push_nodes, if_neg hne] at hn'
      exact Or.inr (hwf.qLinked j hj n' f' hn' hf')
    · exact Or.inl rfl
  · exact hwf.aNodup.cons hamem
  · intro j hj
    simp only [push_head_all, List.mem_cons] at hj
    rcases hj with rfl | hj
    · exact ⟨⟨some f, true, 1⟩, f, by simp, rfl⟩
    · have hne : j ≠ st.nextId := fun h => hamem (h ▸ hj)
      rcases hwf.aSome j hj with ⟨n, f', hn, hf'⟩
      exact ⟨n, f', by simp [hne, hn], hf'⟩

/-! Reduction lemmas for one iteration of the poll driver. -/

lemma pollStep_empty (st : FuturesUnordered α) (hq : st.readyQueue = [])
    (hm : st.midInsert = false) :
    pollStep st = StepOut.done
      (if st.is_empty then PollRes.ready none else PollRes.pending) false st := by
  simp [pollStep, dequeue, hq, hm]

lemma pollStep_inconsistent (st : FuturesUnordered α) (hq : st.readyQueue = [])
    (hm : st.midInsert = true) :
    pollStep st = StepOut.done PollRes.pending true st := by
  simp [pollStep, dequeue, hq, hm]

lemma pollStep_data_none (st : FuturesUnordered α) (id : Nat) (rest : List Nat)
    (hq : st.readyQueue = id :: rest) (hn : st.nodes id = none) :
    pollStep st = StepOut.again { st with readyQueue := rest } := by
  simp [pollStep, dequeue, hq, hn]

lemma pollStep_data_zombie (st : FuturesUnordered α) (id : Nat) (rest : List Nat)
    (n : Node α) (hq : st.readyQueue = id :: rest) (hn : st.nodes id = some n)
    (hf : n.future = none) :
    pollStep st = StepOut.again (decRef { st with readyQueue := rest } id) := by
  simp [pollStep, dequeue, hq, hn, hf]

lemma pollStep_data_live (st : FuturesUnordered α) (id : Nat) (rest : List Nat)
    (n : Node α) (f : Fut α) (hq : st.readyQueue = id :: rest)
    (hn : st.nodes id = some n) (hf : n.future = some f) (hqd : n.queued = true) :
    pollStep st =
      (match f.steps f.polls with
       | PollStep.pending w => StepOut.again
           (link (if w then wake (prePoll { st with readyQueue := rest } id n f) id
                  else prePoll { st with readyQueue := rest } id n f) id)
       | PollStep.ready w v => StepOut.done (PollRes.ready (some v)) false
           (release_node
             (if w then wake (prePoll { st with readyQueue := rest } id n f) id
              else prePoll { st with readyQueue := rest } id n f) id)
       | PollStep.panics w => StepOut.done PollRes.panicked false
           (release_node
             (if w then wake (prePoll { st with readyQueue := rest } id n f) id
              else prePoll { st with readyQueue := rest } id n f) id)) := by
  simp [pollStep, dequeue, hq, hn, hf, hqd]

lemma poll_next_succ (fuel : Nat) (st : FuturesUnordered α) :
    poll_next (fuel + 1) st =
      match pollStep st with
      | StepOut.done res w st1 => some (res, w, st1)
      | StepOut.again st1 => poll_next fuel st1 := rfl

lemma decRef_nodes_id (st : FuturesUnordered α) (id : Nat) (n : Node α)
    (hn : st.nodes id = some n) :
    (decRef st id).nodes id =
      if n.refs ≤ 1 then none else some { n with refs := n.refs - 1 } := by
  unfold decRef
  rw [hn]
  dsimp only
  split <;> simp

lemma wake_eq_of_not_queued (st : FuturesUnordered α) (id : Nat) (n : Node α)
    (hn : st.nodes id = some n) (hq : n.queued = false) :
    wake st id = enqueue (setNode st id { n with queued := true }) id := by
  unfold wake
  rw [hn]
  dsimp only
  simp [hq]

lemma wake_eq_of_queued (st : FuturesUnordered α) (id : Nat) (n : Node α)
    (hn : st.nodes id = some n) (hq : n.queued = true) :
    wake st id = st := by
  unfold wake
  rw [hn]
  dsimp only
  simp [hq]

lemma release_node_eq_queued (st : FuturesUnordered α) (id : Nat) (n : Node α)
    (hn : st.nodes id = some n) (hq : n.queued = true) :
    release_node st id = setNode st id { n with queued := true, future := none } := by
  unfold release_node
  rw [hn]
  dsimp only
  simp [hq]

lemma release_node_eq_not_queued (st : FuturesUnordered α) (id : Nat) (n : Node α)
    (hn : st.nodes id = some n) (hq : n.queued = false) :
    release_node st id =
      decRef (setNode st id { n with queued := true, future := none }) id := by
  unfold release_node
  rw [hn]
  dsimp only
  simp [hq]

/-! Preservation of the invariant by one loop iteration. -/

lemma wf_zombie {st : FuturesUnordered α} {id : Nat} {rest : List Nat} {n : Node α}
    (hwf : WF st) (hq : st.readyQueue = id :: rest) (hn : st.nodes id = some n)
    (hf : n.future = none) :
    WF (decRef { st with readyQueue := rest } id) ∧
      (decRef { st with readyQueue := rest } id).len = st.len ∧
      (decRef { st with readyQueue := rest } id).readyQueue = rest ∧
      (decRef { st with readyQueue := rest } id).head_all = st.head_all := by
  have hqn : (id :: rest).Nodup := hq ▸ hwf.qNodup
  have hidr : id ∉ rest := hqn.not_mem
  have hna : id ∉ st.head_all := by
    intro hm
    rcases hwf.aSome id hm with ⟨n', f', hn', hf'⟩
    rw [hn] at hn'
    cases hn'
    rw [hf] at hf'
    exact Option.noConfusion hf'
  have hidlt : id < st.nextId := by
    by_contra hlt
    rw [hwf.fresh id (Nat.le_of_not_lt hlt)] at hn
    exact Option.noConfusion hn
  have hrmem : ∀ j, j ∈ rest → j ∈ st.readyQueue := by
    intro j hj
    rw [hq]
    exact List.mem_cons_of_mem _ hj
  refine ⟨⟨?_, ?_, ?_, ?_, ?_, ?_, ?_⟩, by simp, by simp, by simp⟩
  · simpa using hwf.lenEq
  · intro j hj
    simp only [decRef_nextId] at hj
    rw [decRef_nodes_ne _ _ _ (by omega)]
    exact hwf.fresh j hj
  · simpa using hqn.of_cons
  · intro j hj
    simp only [decRef_readyQueue] at hj
    have hne : j ≠ id := fun h => hidr (h ▸ hj)
    rcases hwf.qSome j (hrmem j hj) with ⟨n', hn', hq'⟩
    refine ⟨n', ?_, hq'⟩
    rw [decRef_nodes_ne _ _ _ hne]
    exact hn'
  · intro j hj n' f' hn' hf'
    simp only [decRef_readyQueue] at hj
    have hne : j ≠ id := fun h => hidr (h ▸ hj)
    rw [decRef_nodes_ne _ _ _ hne] at hn'
    simpa using hwf.qLinked j (hrmem j hj) n' f' hn' hf'
  · simpa using hwf.aNodup
  · intro j hj
    simp only [decRef_head_all] at hj
    have hne : j ≠ id := fun h => hna (h ▸ hj)
    rcases hwf.aSome j hj with ⟨n', f', hn', hf'⟩
    refine ⟨n', f', ?_, hf'⟩
    rw [decRef_nodes_ne _ _ _ hne]
    exact hn'

lemma wf_relink {st : FuturesUnordered α} {id : Nat} {rest : List Nat} {n : Node α}
    {f : Fut α} (w : Bool) (hwf : WF st) (hq : st.readyQueue = id :: rest)
    (hn : st.nodes id = some n) (hf : n.future = some f) :
    WF (link (if w then wake (prePoll { st with readyQueue := rest } id n f) id
              else prePoll { st with readyQueue := rest } id n f) id) ∧
      (link (if w then wake (prePoll { st with readyQueue := rest } id n f) id
             else prePoll { st with readyQueue := rest } id n f) id).len = st.len ∧
      (link (if w then wake (prePoll { st with readyQueue := rest } id n f) id
             else prePoll { st with readyQueue := rest } id n f) id).readyQueue
        = (if w then rest ++ [id] else rest) := by
  have hmem : id ∈ st.readyQueue := by
    rw [hq]
    simp
  have hina : id ∈ st.head_all := hwf.qLinked id hmem n f hn hf
  have hpos : 0 < st.head_all.length := List.length_pos_of_mem hina
  have hlen0 : st.len = st.head_all.length := hwf.lenEq
  have hner : id ∉ st.head_all.erase id := hwf.aNodup.not_mem_erase
  have hqn : (id :: rest).Nodup := hq ▸ hwf.qNodup
  have hidr : id ∉ rest := hqn.not_mem
  have hidlt : id < st.nextId := by
    by_contra hlt
    rw [hwf.fresh id (Nat.le_of_not_lt hlt)] at hn
    exact Option.noConfusion hn
  have herase : (st.head_all.erase id).length + 1 = st.head_all.length :=
    List.length_erase_add_one hina
  have hrmem : ∀ j, j ∈ rest → j ∈ st.readyQueue := by
    intro j hj
    rw [hq]
    exact List.mem_cons_of_mem _ hj
  have hpren : (prePoll { st with readyQueue := rest } id n f).nodes id
      = some { n with queued := false, future := some (advanceFut f) } := by
    simp [prePoll]
  cases w
  case false =>
    simp only [Bool.false_eq_true, if_false]
    refine ⟨⟨?_, ?_, ?_, ?_, ?_, ?_, ?_⟩, ?_, ?_⟩
    · simp [prePoll]
      omega
    · intro j hj
      simp only [link_nextId, prePoll, setNode_nextId, unlink_nextId] at hj
      simp only [link_nodes, prePoll, setNode_nodes]
      rw [if_neg (by omega)]
      exact hwf.fresh j hj
    · simpa [prePoll] using hqn.of_cons
    · intro j hj
      simp only [link_readyQueue, prePoll, setNode_readyQueue, unlink_readyQueue] at hj
      have hne : j ≠ id := fun h => hidr (h ▸ hj)
      rcases hwf.qSome j (hrmem j hj) with ⟨n', hn', hq'⟩
      exact ⟨n', by simp [prePoll, hne, hn'], hq'⟩
    · intro j hj n' f' hn' hf'
      simp only [link_readyQueue, prePoll, setNode_readyQueue, unlink_readyQueue] at hj
      have hne : j ≠ id := fun h => hidr (h ▸ hj)
      simp only [link_nodes, prePoll, setNode_nodes, if_neg hne] at hn'
      have hmem' : j ∈ st.head_all := hwf.qLinked j (hrmem j hj) n' f' hn' hf'
      simp only [link_head_all, prePoll, setNode_head_all, unlink_head_all, List.mem_cons]
      exact Or.inr ((List.mem_erase_of_ne hne).2 hmem')
    · simp only [link_head_all, prePoll, setNode_head_all, unlink_head_all]
      exact List.Nodup.cons hner (hwf.aNodup.erase id)
    · intro j hj
      simp only [link_head_all, prePoll, setNode_head_all, unlink_head_all,
        List.mem_cons] at hj
      rcases hj with rfl | hj
      · exact ⟨{ n with queued := false, future := some (advanceFut f) }, advanceFut f,
          by simp [prePoll], rfl⟩
      · have hne : j ≠ id := fun h => hner (h ▸ hj)
        rcases hwf.aSome j (List.mem_of_mem_erase hj) with ⟨n', f', hn', hf'⟩
        exact ⟨n', f', by simp [prePoll, hne, hn'], hf'⟩
    · simp [prePoll]
      omega
    · simp [prePoll]
  case true =>
    simp only [if_true]
    rw [wake_eq_of_not_queued _ _ _ hpren rfl]
    refine ⟨⟨?_, ?_, ?_, ?_, ?_, ?_, ?_⟩, ?_, ?_⟩
    · simp [prePoll]
      omega
    · intro j hj
      simp only [link_nextId, enqueue_nextId, setNode_nextId, prePoll, unlink_nextId] at hj
      simp only [link_nodes, enqueue_nodes, setNode_nodes, prePoll]
      rw [if_neg (by omega), if_neg (by omega)]
      exact hwf.fresh j hj
    · simp only [link_readyQueue, enqueue_readyQueue, setNode_readyQueue, prePoll,
        unlink_readyQueue]
      simp [List.nodup_append, hqn.of_cons, hidr]
    · intro j hj
      simp only [link_readyQueue, enqueue_readyQueue, setNode_readyQueue, prePoll,
        unlink_readyQueue, List.mem_append, List.mem_singleton] at hj
      rcases hj with hj | rfl
      · have hne : j ≠ id := fun h => hidr (h ▸ hj)
        rcases hwf.qSome j (hrmem j hj) with ⟨n', hn', hq'⟩
        exact ⟨n', by simp [prePoll, hne, hn'], hq'⟩
      · exact ⟨{ n with queued := true, future := some (advanceFut f) }, by simp [prePoll], rfl⟩
    · intro j hj n' f' hn' hf'
      simp only [link_readyQueue, enqueue_readyQueue, setNode_readyQueue, prePoll,
        unlink_readyQueue, List.mem_append, List.mem_singleton] at hj
      simp only [link_head_all, enqueue_head_all, setNode_head_all, prePoll,
        unlink_head_all, List.mem_cons]
      rcases hj with hj | rfl
      · have hne : j ≠ id := fun h => hidr (h ▸ hj)
        simp only [link_nodes, enqueue_nodes, setNode_nodes, prePoll, if_neg hne] at hn'
        have hmem' : j ∈ st.head_all := hwf.qLinked j (hrmem j hj) n' f' hn' hf'
        exact Or.inr ((List.mem_erase_of_ne hne).2 hmem')
      · exact Or.inl rfl
    · simp only [link_head_all, enqueue_head_all, setNode_head_all, prePoll,
        unlink_head_all]
      exact List.Nodup.cons hner (hwf.aNodup.erase id)
    · intro j hj
      simp only [link_head_all, enqueue_head_all, setNode_head_all, prePoll,
        unlink_head_all, List.mem_cons] at hj
      rcases hj with rfl | hj
      · exact ⟨{ n with queued := true, future := some (advanceFut f) }, advanceFut f,
          by simp [prePoll], rfl⟩
      · have hne : j ≠ id := fun h => hner (h ▸ hj)
        rcases hwf.aSome j (List.mem_of_mem_erase hj) with ⟨n', f', hn', hf'⟩
        exact ⟨n', f', by simp [prePoll, hne, hn'], hf'⟩
    · simp [prePoll]
      omega
    · simp [prePoll]

lemma qSome_head {st : FuturesUnordered α} {id : Nat} {rest : List Nat} (hwf : WF st)
    (hq : st.readyQueue = id :: rest) :
    ∃ n, st.nodes id = some n ∧ n.queued = true := by
  refine hwf.qSome id ?_
  rw [hq]
  simp

lemma wf_again {st st' : FuturesUnordered α} (hwf : WF st)
    (h : pollStep st = StepOut.again st') :
    WF st' ∧ st'.len = st.len ∧
      st'.readyQueue.length ≤ st.readyQueue.length ∧
      (NoSelfWake st → st'.readyQueue.length < st.readyQueue.length ∧ NoSelfWake st') := by
  rcases hq : st.readyQueue with _ | ⟨id, rest⟩
  · rcases hm : st.midInsert with _ | _
    · rw [pollStep_empty st hq hm] at h
      exact StepOut.noConfusion h
    · rw [pollStep_inconsistent st hq hm] at h
      exact StepOut.noConfusion h
  · rcases hn : st.nodes id with _ | n
    · rcases qSome_head hwf hq with ⟨n', hn', _⟩
      rw [hn] at hn'
      exact Option.noConfusion hn'
    · rcases hfo : n.future with _ | f
      · rw [pollStep_data_zombie st id rest n hq hn hfo] at h
        injection h with h'
        subst h'
        obtain ⟨hwf', hlen, hqq, _⟩ := wf_zombie hwf hq hn hfo
        refine ⟨hwf', hlen, ?_, ?_⟩
        · rw [hqq, List.length_cons]
          omega
        · intro hns
          refine ⟨by rw [hqq, List.length_cons]; omega, ?_⟩
          intro j n' f' k hn' hf'
          by_cases hj : j = id
          · rw [hj] at hn'
            rw [decRef_nodes_id ({ st with readyQueue := rest }) id n hn] at hn'
            split at hn'
            · exact Option.noConfusion hn'
            · injection hn' with h''
              subst h''
              simp [hfo] at hf'
          · rw [decRef_nodes_ne ({ st with readyQueue := rest }) id j hj] at hn'
            exact hns j n' f' k hn' hf'
      · obtain ⟨n', hn', hqd⟩ := qSome_head hwf hq
        rw [hn] at hn'
        injection hn' with hn'
        subst hn'
        rw [pollStep_data_live st id rest n f hq hn hfo hqd] at h
        rcases hstep : f.steps f.polls with w | ⟨w, v⟩ | w
        · rw [hstep] at h
          injection h with h'
          subst h'
          obtain ⟨hwf', hlen, hqq⟩ := wf_relink w hwf hq hn hfo
          refine ⟨hwf', hlen, ?_, ?_⟩
          · rw [hqq, List.length_cons]
            rcases w with _ | _
            · simp
            · simp
          · intro hns
            have hw : w = false := by
              rcases w with _ | _
              · rfl
              · exact absurd hstep (hns id n f f.polls hn hfo)
            subst hw
            refine ⟨by rw [hqq, List.length_cons]; simp, ?_⟩
            intro j n' f' k hn' hf'
            simp only [Bool.false_eq_true, if_false, link_nodes, prePoll,
              setNode_nodes, unlink_nodes] at hn'
            by_cases hj : j = id
            · rw [if_pos hj] at hn'
              injection hn' with h''
              subst h''
              dsimp only at hf'
              injection hf' with h''
              subst h''
              simpa [advanceFut] using hns id n f k hn hfo
            · rw [if_neg hj] at hn'
              exact hns j n' f' k hn' hf'
        · rw [hstep] at h
          exact StepOut.noConfusion h
        · rw [hstep] at h
          exact StepOut.noConfusion h

lemma done_len {st st' : FuturesUnordered α} {res : PollRes α} {sw : Bool}
    (hwf : WF st) (h : pollStep st = StepOut.done res sw st') :
    (res = PollRes.pending → st'.len = st.len) ∧
    (res = PollRes.ready none → st'.len = st.len ∧ st.len = 0) ∧
    (∀ v, res = PollRes.ready (some v) → st'.len + 1 = st.len) ∧
    (res = PollRes.panicked → st'.len + 1 = st.len) := by
  rcases hq : st.readyQueue with _ | ⟨id, rest⟩
  · rcases hm : st.midInsert with _ | _
    · rw [pollStep_empty st hq hm] at h
      injection h with h1 h2 h3
      subst h3
      by_cases hl : st.len = 0
      · rw [if_pos (by simpa [is_empty] using hl)] at h1
        refine ⟨fun _ => rfl, fun _ => ⟨rfl, hl⟩, ?_, ?_⟩
        · intro v hv
          rw [← h1] at hv
          simp at hv
        · intro hv
          rw [← h1] at hv
          exact PollRes.noConfusion hv
      · rw [if_neg (by simpa [is_empty] using hl)] at h1
        refine ⟨fun _ => rfl, ?_, ?_, ?_⟩
        · intro hv
          rw [← h1] at hv
          exact PollRes.noConfusion hv
        · intro v hv
          rw [← h1] at hv
          exact PollRes.noConfusion hv
        · intro hv
          rw [← h1] at hv
          exact PollRes.noConfusion hv
    · rw [pollStep_inconsistent st hq hm] at h
      injection h with h1 h2 h3
      subst h3
      refine ⟨fun _ => rfl, ?_, ?_, ?_⟩
      · intro hv
        rw [← h1] at hv
        exact PollRes.noConfusion hv
      · intro v hv
        rw [← h1] at hv
        exact PollRes.noConfusion hv
      · intro hv
        rw [← h1] at hv
        exact PollRes.noConfusion hv
  · rcases hn : st.nodes id with _ | n
    · rcases qSome_head hwf hq with ⟨n', hn', _⟩
      rw [hn] at hn'
      exact Option.noConfusion hn'
    · rcases hfo : n.future with _ | f
      · rw [pollStep_data_zombie st id rest n hq hn hfo] at h
        exact StepOut.noConfusion h
      · obtain ⟨n', hn', hqd⟩ := qSome_head hwf hq
        rw [hn] at hn'
        injection hn' with hn'
        subst hn'
        have hmem : id ∈ st.readyQueue := by
          rw [hq]
          simp
        have hina : id ∈ st.head_all := hwf.qLinked id hmem n f hn hfo
        have hpos : 0 < st.head_all.length := List.length_pos_of_mem hina
        have hlen0 : st.len = st.head_all.length := hwf.lenEq
        rw [pollStep_data_live st id rest n f hq hn hfo hqd] at h
        rcases hstep : f.steps f.polls with w | ⟨w, v⟩ | w
        · rw [hstep] at h
          exact StepOut.noConfusion h
        · rw [hstep] at h
          injection h with h1 h2 h3
          subst h3
          refine ⟨?_, ?_, ?_, ?_⟩
          · intro hv
            rw [← h1] at hv
            exact PollRes.noConfusion hv
          · intro hv
            rw [← h1] at hv
            injection hv with hv
            exact Option.noConfusion hv
          · intro v' hv
            rcases w with _ | _ <;> simp [prePoll] <;> omega
          · intro hv
            rw [← h1] at hv
            exact PollRes.noConfusion hv
        · rw [hstep] at h
          injection h with h1 h2 h3
          subst h3
          refine ⟨?_, ?_, ?_, ?_⟩
          · intro hv
            rw [← h1] at hv
            exact PollRes.noConfusion hv
          · intro hv
            rw [← h1] at hv
            exact PollRes.noConfusion hv
          · intro v' hv
            rw [← h1] at hv
            exact PollRes.noConfusion hv
          · intro hv
            rcases w with _ | _ <;> simp [prePoll] <;> omega

lemma state_ext {st₁ st₂ : FuturesUnordered α}
    (hn : ∀ j, st₁.nodes j = st₂.nodes j) (h2 : st₁.head_all = st₂.head_all)
    (h3 : st₁.len = st₂.len) (h4 : st₁.readyQueue = st₂.readyQueue)
    (h5 : st₁.midInsert = st₂.midInsert) (h6 : st₁.nextId = st₂.nextId) :
    st₁ = st₂ := by
  cases st₁
  cases st₂
  simp only at hn h2 h3 h4 h5 h6
  subst h2
  subst h3
  subst h4
  subst h5
  subst h6
  congr 1
  funext j
  exact hn j

lemma poll_next_mono {fuel fuel' : Nat} (h : fuel ≤ fuel')
    {st : FuturesUnordered α} {out : PollRes α × Bool × FuturesUnordered α}
    (hp : poll_next fuel st = some out) : poll_next fuel' st = some out := by
  induction fuel generalizing fuel' st with
  | zero => exact Option.noConfusion hp
  | succ fuel IH =>
    rcases fuel' with _ | fuel'
    · omega
    · rw [poll_next_succ] at hp ⊢
      rcases hps : pollStep st with ⟨res, w, st1⟩ | st1
      all_goals rw [hps] at hp
      · exact hp
      · exact IH (by omega) hp

lemma poll_next_terminates_of_no_selfwake {st : FuturesUnordered α}
    (hwf : WF st) (hns : NoSelfWake st) :
    ∃ out, poll_next (st.readyQueue.length + 1) st = some out := by
  generalize hL : st.readyQueue.length = L
  induction L using Nat.strong_induction_on generalizing st with
  | _ L IH =>
    rcases hps : pollStep st with ⟨res, w, st1⟩ | st1
    · exact ⟨(res, w, st1), by rw [poll_next_succ, hps]⟩
    · obtain ⟨hwf1, _, _, hdec⟩ := wf_again hwf hps
      obtain ⟨hlt, hns1⟩ := hdec hns
      obtain ⟨out, hout⟩ := IH st1.readyQueue.length (by omega) hwf1 hns1 rfl
      refine ⟨out, ?_⟩
      rw [poll_next_succ, hps]
      exact poll_next_mono (by omega) hout

lemma push_all_len (fs : List (Fut α)) (st : FuturesUnordered α) :
    (push_all fs st).len = st.len + fs.length := by
  induction fs generalizing st with
  | nil => rfl
  | cons f fs IH =>
    have hstep : push_all (f :: fs) st = push_all fs (push f st) := rfl
    rw [hstep, IH]
    simp only [push_len, List.length_cons]
    omega

lemma foldl_push_eq_pushSeq (fs : List (Fut α)) (st : FuturesUnordered α) :
    fs.foldl (fun acc f => push f acc) st = pushSeq fs st := by
  induction fs generalizing st with
  | nil => rfl
  | cons f fs IH => exact IH (push f st)

lemma dequeue_empty_elim {st : FuturesUnordered α}
    (h : (dequeue st).1 = Dequeue.Empty) :
    st.readyQueue = [] ∧ st.midInsert = false := by
  unfold dequeue at h
  rcases hql : st.readyQueue with _ | ⟨id, rest⟩ <;> rw [hql] at h
  · rcases hmm : st.midInsert with _ | _ <;> rw [hmm] at h
    · exact ⟨rfl, rfl⟩
    · simp at h
  · simp at h

lemma dequeue_inconsistent_elim {st : FuturesUnordered α}
    (h : (dequeue st).1 = Dequeue.Inconsistent) :
    st.readyQueue = [] ∧ st.midInsert = true := by
  unfold dequeue at h
  rcases hql : st.readyQueue with _ | ⟨id, rest⟩ <;> rw [hql] at h
  · rcases hmm : st.midInsert with _ | _ <;> rw [hmm] at h
    · simp at h
    · exact ⟨rfl, rfl⟩
  · simp at h

/-- C2: whenever the ready-queue dequeue reports Empty, poll_next returns
exhausted (`Ready(None)`) exactly when `len = 0` and Pending exactly when
`len > 0`, leaving the state unchanged; in particular the first poll of a
newly constructed, never-pushed-to collection returns exhausted, and a
collection with live members but no ready member returns Pending, never
exhausted. -/
theorem C2_empty_dequeue (st : FuturesUnordered α) (fuel : Nat)
    (h : (dequeue st).1 = Dequeue.Empty) :
    poll_next (fuel + 1) st =
      some ((if st.len = 0 then PollRes.ready none else PollRes.pending), false, st) ∧
    (st.len = 0 → poll_next (fuel + 1) st = some (PollRes.ready none, false, st)) ∧
    (0 < st.len → poll_next (fuel + 1) st = some (PollRes.pending, false, st)) := by
  obtain ⟨hq, hm⟩ := dequeue_empty_elim h
  rw [poll_next_succ, pollStep_empty st hq hm]
  by_cases hl : st.len = 0
  · rw [if_pos (by simpa [is_empty] using hl), if_pos hl]
    exact ⟨rfl, fun _ => rfl, fun hlt => absurd hl (by omega)⟩
  · rw [if_neg (by simpa [is_empty] using hl), if_neg hl]
    exact ⟨rfl, fun h0 => absurd h0 hl, fun _ => rfl⟩

/-- Witness for C2: the first poll of the empty collection reports
exhaustion. -/
theorem C2_witness :
    (dequeue (new : FuturesUnordered Nat)).1 = Dequeue.Empty ∧
    poll_next 1 (new : FuturesUnordered Nat) = some (PollRes.ready none, false, new) :=
  ⟨rfl, (C2_empty_dequeue (new : FuturesUnordered Nat) 0 rfl).2.1 rfl⟩

/-- C5: whenever dequeue reports Inconsistent, the poll driver rewakes the
current task and returns Pending in that same iteration, with the state
unchanged: the condition is never surfaced as a value, an error or
exhaustion, and is not handled by spinning inside the call. -/
theorem C5_inconsistent (st : FuturesUnordered α) (fuel : Nat)
    (h : (dequeue st).1 = Dequeue.Inconsistent) :
    pollStep st = StepOut.done PollRes.pending true st ∧
    poll_next (fuel + 1) st = some (PollRes.pending, true, st) := by
  obtain ⟨hq, hm⟩ := dequeue_inconsistent_elim h
  refine ⟨pollStep_inconsistent st hq hm, ?_⟩
  rw [poll_next_succ, pollStep_inconsistent st hq hm]

/-- Witness for C5 at a state with a producer caught mid-insert. -/
theorem C5_witness :
    (dequeue { (new : FuturesUnordered Nat) with midInsert := true }).1
      = Dequeue.Inconsistent ∧
    poll_next 1 { (new : FuturesUnordered Nat) with midInsert := true } =
      some (PollRes.pending, true,
        { (new : FuturesUnordered Nat) with midInsert := true }) :=
  ⟨rfl, (C5_inconsistent { (new : FuturesUnordered Nat) with midInsert := true } 0 rfl).2⟩

/-- C8: a sequence of N pushes with zero completions adds N to `len`;
each push links the new record at the head of the all-list with its
queued flag set and one reference, enqueues it at the producer end of the
ready queue, stores the submitted computation untouched (it is never
polled synchronously), and leaves every other record unchanged. -/
theorem C8_push (fs : List (Fut α)) (st : FuturesUnordered α) (f : Fut α) :
    (push_all fs st).len = st.len + fs.length ∧
    (push f st).len = st.len + 1 ∧
    (push f st).head_all = st.nextId :: st.head_all ∧
    (push f st).nodes st.nextId = some ⟨some f, true, 1⟩ ∧
    (push f st).readyQueue = st.readyQueue ++ [st.nextId] ∧
    (∀ j, j ≠ st.nextId → (push f st).nodes j = st.nodes j) := by
  refine ⟨push_all_len fs st, rfl, rfl, by simp, rfl, ?_⟩
  intro j hj
  simp [hj]

/-- Witness for C8: two pushes on the empty collection give length two,
and the pushed computation sits unpolled in the new record. -/
theorem C8_witness :
    (push_all [⟨fun _ => PollStep.pending false, 0⟩,
               ⟨fun _ => PollStep.pending false, 0⟩] (new : FuturesUnordered Nat)).len = 2 ∧
    (push ⟨fun _ => PollStep.pending false, 0⟩ (new : FuturesUnordered Nat)).nodes 0
      = some ⟨some ⟨fun _ => PollStep.pending false, 0⟩, true, 1⟩ := by
  have h := C8_push
    [(⟨fun _ => PollStep.pending false, 0⟩ : Fut Nat), ⟨fun _ => PollStep.pending false, 0⟩]
    (new : FuturesUnordered Nat) ⟨fun _ => PollStep.pending false, 0⟩
  exact ⟨h.1, h.2.2.2.1⟩

/-- C9: bulk construction (`from_iter`, and the `futures_unordered`
constructor) produces exactly the state obtained by starting from `new`
and pushing each computation in sequence order. -/
theorem C9_bulk_construction (fs : List (Fut α)) :
    from_iter fs = specBulk fs ∧ futures_unordered fs = specBulk fs :=
  ⟨foldl_push_eq_pushSeq fs new, foldl_push_eq_pushSeq fs new⟩

/-- C10: on a well-formed state, a poll_next call that returns Pending or
exhaustion leaves `len` unchanged, and a call that returns a produced
value or propagates a member panic decreases `len` by exactly one. -/
theorem C10_len_frame (fuel : Nat) (st st' : FuturesUnordered α)
    (res : PollRes α) (sw : Bool) (hwf : WF st)
    (h : poll_next fuel st = some (res, sw, st')) :
    (res = PollRes.pending → st'.len = st.len) ∧
    (res = PollRes.ready none → st'.len = st.len) ∧
    (∀ v, res = PollRes.ready (some v) → st'.len + 1 = st.len) ∧
    (res = PollRes.panicked → st'.len + 1 = st.len) := by
  induction fuel generalizing st with
  | zero => exact Option.noConfusion h
  | succ fuel IH =>
    rw [poll_next_succ] at h
    rcases hps : pollStep st with ⟨res0, w0, st0⟩ | st0
    all_goals rw [hps] at h
    · simp only [Option.some.injEq, Prod.mk.injEq] at h
      obtain ⟨rfl, rfl, rfl⟩ := h
      obtain ⟨d1, d2, d3, d4⟩ := done_len hwf hps
      exact ⟨d1, fun hr => (d2 hr).1, d3, d4⟩
    · obtain ⟨hwf0, hlen0, _, _⟩ := wf_again hwf hps
      obtain ⟨d1, d2, d3, d4⟩ := IH st0 hwf0 h
      exact ⟨fun hr => by rw [d1 hr, hlen0], fun hr => by rw [d2 hr, hlen0],
        fun v hr => by rw [d3 v hr, hlen0], fun hr => by rw [d4 hr, hlen0]⟩

/-- A computation that resolves to 7 on its first poll. -/
def readyFut : Fut Nat := ⟨fun _ => PollStep.ready false 7, 0⟩

/-- Witness for C10: polling a one-member collection whose member is
already resolved yields the value and drops `len` from one to zero. -/
theorem C10_witness :
    WF (push readyFut new) ∧
    ∃ st', poll_next 1 (push readyFut new) = some (PollRes.ready (some 7), false, st') ∧
      st'.len + 1 = (push readyFut new).len := by
  refine ⟨wf_push readyFut wf_new, ?_⟩
  refine ⟨_, rfl, ?_⟩
  exact (C10_len_frame 1 (push readyFut new) _ _ _ (wf_push readyFut wf_new) rfl).2.2.1 7 rfl

/-- C1: for a dequeued record whose computation is still present, polling
has exactly two normal outcomes: on Pending the record is re-linked into
the all-list and the loop continues without returning; on Ready(v) the
record is finalized (computation slot cleared, record left unlinked from
the all-list) and the value is returned as the result of this poll. -/
theorem C1_live_poll (st : FuturesUnordered α) (id : Nat) (rest : List Nat)
    (n : Node α) (f : Fut α) (fuel : Nat) (hwf : WF st)
    (hq : st.readyQueue = id :: rest) (hn : st.nodes id = some n)
    (hf : n.future = some f) :
    (∀ w, f.steps f.polls = PollStep.pending w →
      ∃ st', pollStep st = StepOut.again st' ∧
        poll_next (fuel + 1) st = poll_next fuel st' ∧
        id ∈ st'.head_all ∧ st'.len = st.len ∧
        ∃ n', st'.nodes id = some n' ∧ n'.future = some (advanceFut f)) ∧
    (∀ w v, f.steps f.polls = PollStep.ready w v →
      ∃ st', pollStep st = StepOut.done (PollRes.ready (some v)) false st' ∧
        poll_next (fuel + 1) st = some (PollRes.ready (some v), false, st') ∧
        (∀ n', st'.nodes id = some n' → n'.future = none) ∧
        id ∉ st'.head_all) := by
  obtain ⟨n', hn', hqd⟩ := qSome_head hwf hq
  rw [hn] at hn'
  injection hn' with hn'
  subst hn'
  have hmem : id ∈ st.readyQueue := by
    rw [hq]
    simp
  have hina : id ∈ st.head_all := hwf.qLinked id hmem n f hn hf
  have hner : id ∉ st.head_all.erase id := hwf.aNodup.not_mem_erase
  have hps := pollStep_data_live st id rest n f hq hn hf hqd
  constructor
  · intro w hstep
    rw [hstep] at hps
    refine ⟨_, hps, by rw [poll_next_succ, hps], by simp,
      (wf_relink w hwf hq hn hf).2.1, ?_⟩
    rcases w with _ | _
    · exact ⟨{ n with queued := false, future := some (advanceFut f) },
        by simp [prePoll], rfl⟩
    · refine ⟨{ n with queued := true, future := some (advanceFut f) }, ?_, rfl⟩
      rw [if_pos rfl,
        wake_eq_of_not_queued (prePoll { st with readyQueue := rest } id n f) id
          { n with queued := false, future := some (advanceFut f) } (by simp [prePoll]) rfl]
      simp [prePoll]
  · intro w v hstep
    rw [hstep] at hps
    refine ⟨_, hps, by rw [poll_next_succ, hps], ?_, ?_⟩
    · rcases w with _ | _
      · intro n' hn''
        rw [if_neg (by simp),
          release_node_eq_not_queued (prePoll { st with readyQueue := rest } id n f) id
            { n with queued := false, future := some (advanceFut f) }
            (by simp [prePoll]) rfl,
          decRef_nodes_id _ id { n with queued := true, future := none }
            (by simp [prePoll])] at hn''
        split at hn''
        · exact Option.noConfusion hn''
        · injection hn'' with h''
          subst h''
          rfl
      · intro n' hn''
        rw [if_pos rfl,
          wake_eq_of_not_queued (prePoll { st with readyQueue := rest } id n f) id
            { n with queued := false, future := some (advanceFut f) }
            (by simp [prePoll]) rfl,
          release_node_eq_queued _ id { n with queued := true, future := some (advanceFut f) }
            (by simp [prePoll]) rfl] at hn''
        simp at hn''
        subst hn''
        rfl
    · rcases w with _ | _ <;> simp [prePoll] <;> exact hner

/-- Witness for C1: a one-member collection whose member resolves to 7 on
its first poll takes the Ready branch. -/
theorem C1_witness :
    ∃ st', pollStep (push readyFut new) = StepOut.done (PollRes.ready (some 7)) false st' ∧
      poll_next 1 (push readyFut new) = some (PollRes.ready (some 7), false, st') ∧
      (∀ n', st'.nodes 0 = some n' → n'.future = none) ∧
      0 ∉ st'.head_all :=
  (C1_live_poll (push readyFut new) 0 [] ⟨some readyFut, true, 1⟩ readyFut 0
    (wf_push readyFut wf_new) rfl rfl rfl).2 false 7 rfl

/-- C3: finalizing a record whose queued flag is still set clears the
computation slot, leaves the queued flag set and performs no reference
release: the state change is a pure `setNode`, so the count is handed to
the ready queue entry.  When the poll driver later dequeues such a
zombie record it drops exactly that one reference and continues the loop,
touching neither `len` nor the all-list. -/
theorem C3_finalize_while_enqueued (stA stB : FuturesUnordered α) (a b : Nat)
    (na nb : Node α) (rest : List Nat) (fuel : Nat)
    (hA : stA.nodes a = some na) (hAq : na.queued = true)
    (hB : stB.readyQueue = b :: rest) (hBn : stB.nodes b = some nb)
    (hBf : nb.future = none) :
    (release_node stA a = setNode stA a { na with queued := true, future := none } ∧
     (release_node stA a).nodes a = some { na with queued := true, future := none } ∧
     (release_node stA a).len = stA.len ∧
     (release_node stA a).readyQueue = stA.readyQueue ∧
     (release_node stA a).head_all = stA.head_all) ∧
    (pollStep stB = StepOut.again (decRef { stB with readyQueue := rest } b) ∧
     poll_next (fuel + 1) stB = poll_next fuel (decRef { stB with readyQueue := rest } b) ∧
     (decRef { stB with readyQueue := rest } b).len = stB.len ∧
     (decRef { stB with readyQueue := rest } b).head_all = stB.head_all ∧
     (nb.refs ≤ 1 → (decRef { stB with readyQueue := rest } b).nodes b = none) ∧
     (1 < nb.refs → (decRef { stB with readyQueue := rest } b).nodes b
        = some { nb with refs := nb.refs - 1 })) := by
  have hArel := release_node_eq_queued stA a na hA hAq
  have hBps := pollStep_data_zombie stB b rest nb hB hBn hBf
  refine ⟨⟨hArel, ?_, by simp, by simp, by simp⟩,
    hBps, by rw [poll_next_succ, hBps], by simp, by simp, ?_, ?_⟩
  · rw [hArel]
    simp
  · intro hr
    rw [decRef_nodes_id ({ stB with readyQueue := rest }) b nb hBn, if_pos hr]
  · intro hr
    rw [decRef_nodes_id ({ stB with readyQueue := rest }) b nb hBn, if_neg (by omega)]

/-- A state whose only record is a zombie left over from a
finalize-while-enqueued handoff: computation cleared, queued flag still
set, and the single reference owned by the ready queue. -/
def zombieSt : FuturesUnordered Nat :=
  { nodes := fun j => if j = 0 then some ⟨none, true, 1⟩ else none,
    head_all := [], len := 0, readyQueue := [0], midInsert := false, nextId := 1 }

/-- Witness for C3: releasing a freshly pushed (hence still enqueued)
record keeps it in the arena with the slot cleared, and dequeuing a
zombie frees its reference while leaving `len` alone. -/
theorem C3_witness :
    (release_node (push readyFut new) 0).nodes 0 = some ⟨none, true, 1⟩ ∧
    pollStep zombieSt = StepOut.again (decRef { zombieSt with readyQueue := [] } 0) ∧
    (decRef { zombieSt with readyQueue := [] } 0).len = zombieSt.len ∧
    (decRef { zombieSt with readyQueue := [] } 0).nodes 0 = none := by
  have h := C3_finalize_while_enqueued (push readyFut new) zombieSt 0 0
    ⟨some readyFut, true, 1⟩ ⟨none, true, 1⟩ [] 0 rfl rfl rfl rfl rfl
  exact ⟨h.1.2.1, h.2.1, h.2.2.2.1, h.2.2.2.2.2.1 (Nat.le_refl 1)⟩

/-- A computation whose first poll exits abnormally. -/
def panicFut : Fut Nat := ⟨fun _ => PollStep.panics false, 0⟩

/-- C4: if a dequeued live record's poll exits abnormally, the bomb
finalizes the record before the abnormal exit propagates: the result of
poll_next is the propagated panic, the record is unlinked from the
all-list (`len` decremented by one), its computation slot is cleared and
its queued flag set so it is never re-enqueued, and every other record
is left untouched, keeping the remaining members usable. -/
theorem C4_panic_finalizes (st : FuturesUnordered α) (id : Nat) (rest : List Nat)
    (n : Node α) (f : Fut α) (w : Bool) (fuel : Nat) (hwf : WF st)
    (hq : st.readyQueue = id :: rest) (hn : st.nodes id = some n)
    (hf : n.future = some f) (hp : f.steps f.polls = PollStep.panics w) :
    ∃ st', pollStep st = StepOut.done PollRes.panicked false st' ∧
      poll_next (fuel + 1) st = some (PollRes.panicked, false, st') ∧
      st'.head_all = st.head_all.erase id ∧
      id ∉ st'.head_all ∧
      st'.len + 1 = st.len ∧
      (∀ n', st'.nodes id = some n' → n'.future = none ∧ n'.queued = true) ∧
      (∀ j, j ≠ id → st'.nodes j = st.nodes j) := by
  obtain ⟨n', hn', hqd⟩ := qSome_head hwf hq
  rw [hn] at hn'
  injection hn' with hn'
  subst hn'
  have hmem : id ∈ st.readyQueue := by
    rw [hq]
    simp
  have hina : id ∈ st.head_all := hwf.qLinked id hmem n f hn hf
  have hpos : 0 < st.head_all.length := List.length_pos_of_mem hina
  have hlen0 : st.len = st.head_all.length := hwf.lenEq
  have hner : id ∉ st.head_all.erase id := hwf.aNodup.not_mem_erase
  have hps := pollStep_data_live st id rest n f hq hn hf hqd
  rw [hp] at hps
  refine ⟨_, hps, by rw [poll_next_succ, hps], ?_, ?_, ?_, ?_, ?_⟩
  · rcases w with _ | _ <;> simp [prePoll]
  · rcases w with _ | _ <;> simp [prePoll] <;> exact hner
  · rcases w with _ | _ <;> simp [prePoll] <;> omega
  · rcases w with _ | _
    · intro n' hn''
      rw [if_neg (by simp),
        release_node_eq_not_queued (prePoll { st with readyQueue := rest } id n f) id
          { n with queued := false, future := some (advanceFut f) }
          (by simp [prePoll]) rfl,
        decRef_nodes_id _ id { n with queued := true, future := none }
          (by simp [prePoll])] at hn''
      split at hn''
      · exact Option.noConfusion hn''
      · injection hn'' with h''
        subst h''
        exact ⟨rfl, rfl⟩
    · intro n' hn''
      rw [if_pos rfl,
        wake_eq_of_not_queued (prePoll { st with readyQueue := rest } id n f) id
          { n with queued := false, future := some (advanceFut f) }
          (by simp [prePoll]) rfl,
        release_node_eq_queued _ id { n with queued := true, future := some (advanceFut f) }
          (by simp [prePoll]) rfl] at hn''
      simp at hn''
      subst hn''
      exact ⟨rfl, rfl⟩
  · intro j hj
    rcases w with _ | _
    · rw [if_neg (by simp), release_node_nodes_ne _ _ _ hj]
      simp [prePoll, hj]
    · rw [if_pos rfl, release_node_nodes_ne _ _ _ hj, wake_nodes_ne _ _ _ hj]
      simp [prePoll, hj]

/-- Witness for C4: a one-member collection whose member panics on its
first poll propagates the panic with the record finalized. -/
theorem C4_witness :
    ∃ st', pollStep (push panicFut new) = StepOut.done PollRes.panicked false st' ∧
      poll_next 1 (push panicFut new) = some (PollRes.panicked, false, st') ∧
      st'.head_all = (push panicFut new).head_all.erase 0 ∧
      0 ∉ st'.head_all ∧
      st'.len + 1 = (push panicFut new).len ∧
      (∀ n', st'.nodes 0 = some n' → n'.future = none ∧ n'.queued = true) ∧
      (∀ j, j ≠ 0 → st'.nodes j = (push panicFut new).nodes j) :=
  C4_panic_finalizes (push panicFut new) 0 [] ⟨some panicFut, true, 1⟩ panicFut false 0
    (wf_push panicFut wf_new) rfl rfl rfl rfl

/-- A computation that always reports Pending and always performs a
synchronous self-wakeup during its own poll. -/
def pendWakeFut : Fut Nat := ⟨fun _ => PollStep.pending true, 0⟩

/-- C6: a dequeued record with a live computation always has its queued
flag set at the moment the driver clears it (the asserted previous value
is true on every well-formed state), the record is unlinked from the
all-list with `len` decremented and the flag cleared strictly before the
computation is polled, and because the flag is already clear a wakeup
delivered during the poll itself re-enqueues the record. -/
theorem C6_unlink_and_clear_before_poll (st : FuturesUnordered α) (id : Nat)
    (rest : List Nat) (n : Node α) (f : Fut α) (hwf : WF st)
    (hq : st.readyQueue = id :: rest) (hn : st.nodes id = some n)
    (hf : n.future = some f) :
    n.queued = true ∧
    (prePoll { st with readyQueue := rest } id n f).len + 1 = st.len ∧
    id ∉ (prePoll { st with readyQueue := rest } id n f).head_all ∧
    (prePoll { st with readyQueue := rest } id n f).nodes id
      = some { n with queued := false, future := some (advanceFut f) } ∧
    (wake (prePoll { st with readyQueue := rest } id n f) id).readyQueue = rest ++ [id] ∧
    (f.steps f.polls = PollStep.pending true →
      ∃ st', pollStep st = StepOut.again st' ∧ id ∈ st'.readyQueue ∧ id ∈ st'.head_all) := by
  obtain ⟨n', hn', hqd⟩ := qSome_head hwf hq
  rw [hn] at hn'
  injection hn' with hn'
  subst hn'
  have hmem : id ∈ st.readyQueue := by
    rw [hq]
    simp
  have hina : id ∈ st.head_all := hwf.qLinked id hmem n f hn hf
  have hpos : 0 < st.head_all.length := List.length_pos_of_mem hina
  have hlen0 : st.len = st.head_all.length := hwf.lenEq
  have hner : id ∉ st.head_all.erase id := hwf.aNodup.not_mem_erase
  refine ⟨hqd, ?_, ?_, by simp [prePoll], ?_, ?_⟩
  · simp only [prePoll, setNode_len, unlink_len]
    omega
  · simpa [prePoll] using hner
  · rw [wake_eq_of_not_queued (prePoll { st with readyQueue := rest } id n f) id
      { n with queued := false, future := some (advanceFut f) } (by simp [prePoll]) rfl]
    simp [prePoll]
  · intro hstep
    have hps := pollStep_data_live st id rest n f hq hn hf hqd
    rw [hstep] at hps
    refine ⟨_, hps, ?_, by simp⟩
    rw [wake_eq_of_not_queued (prePoll { st with readyQueue := rest } id n f) id
      { n with queued := false, future := some (advanceFut f) } (by simp [prePoll]) rfl]
    simp

/-- Witness for C6: the freshly pushed self-waking member is dequeued
with its queued flag set, and its synchronous wakeup re-enqueues it. -/
theorem C6_witness :
    (⟨some pendWakeFut, true, 1⟩ : Node Nat).queued = true ∧
    (∃ st', pollStep (push pendWakeFut new) = StepOut.again st' ∧
      0 ∈ st'.readyQueue ∧ 0 ∈ st'.head_all) := by
  have h := C6_unlink_and_clear_before_poll (push pendWakeFut new) 0 []
    ⟨some pendWakeFut, true, 1⟩ pendWakeFut (wf_push pendWakeFut wf_new) rfl rfl rfl
  exact ⟨h.1, h.2.2.2.2.2 rfl⟩

/-- The one-member collection holding the always-self-waking pending
computation, after it has been polled k times. -/
def c7State (k : Nat) : FuturesUnordered Nat :=
  { nodes := fun j => if j = 0
      then some ⟨some ⟨fun _ => PollStep.pending true, k⟩, true, 1⟩ else none,
    head_all := [0], len := 1, readyQueue := [0], midInsert := false, nextId := 1 }

lemma c7_step (k : Nat) : pollStep (c7State k) = StepOut.again (c7State (k + 1)) := by
  have h := pollStep_data_live (c7State k) 0 []
    ⟨some ⟨fun _ => PollStep.pending true, k⟩, true, 1⟩
    ⟨fun _ => PollStep.pending true, k⟩ rfl rfl rfl rfl
  rw [h]
  dsimp only
  rw [wake_eq_of_not_queued (prePoll { c7State k with readyQueue := [] } 0
      ⟨some ⟨fun _ => PollStep.pending true, k⟩, true, 1⟩
      ⟨fun _ => PollStep.pending true, k⟩) 0
    ⟨some (advanceFut ⟨fun _ => PollStep.pending true, k⟩), false, 1⟩
    (by simp [prePoll, c7State]) rfl]
  congr 1
  apply state_ext
  · intro j
    by_cases hj : j = 0
    · subst hj
      simp [prePoll, c7State, advanceFut]
    · simp [prePoll, c7State, hj]
  · simp [prePoll, c7State]
  · simp [prePoll, c7State]
  · simp [prePoll, c7State]
  · simp [prePoll, c7State]
  · simp [prePoll, c7State]

lemma c7_none (fuel : Nat) : ∀ k, poll_next fuel (c7State k) = none := by
  induction fuel with
  | zero => intro k; rfl
  | succ fuel IH =>
    intro k
    rw [poll_next_succ, c7_step k]
    exact IH (k + 1)

lemma push_pendWakeFut : push pendWakeFut new = c7State 0 := by
  apply state_ext
  · intro j
    by_cases hj : j = 0
    · subst hj
      simp [new, c7State, pendWakeFut]
    · simp [new, c7State, hj]
  · rfl
  · rfl
  · rfl
  · rfl
  · rfl

/-- C7 counterexample: a member computation that always reports Pending
and always wakes itself synchronously during its own poll makes the poll
driver loop re-enqueue, re-dequeue and re-poll the same record forever:
no amount of loop fuel makes the poll of this one-member collection
return. -/
theorem C7_counterexample :
    ¬ ∃ fuel out, poll_next fuel (push pendWakeFut new) = some out := by
  rintro ⟨fuel, out, hout⟩
  rw [push_pendWakeFut, c7_none fuel 0] at hout
  exact Option.noConfusion hout

/-- C7 (amended): on a well-formed state whose member computations never
perform a synchronous self-wakeup while reporting Pending, the poll
driver loop returns within ready-queue-length plus one iterations; every
exit is one of a produced value, Pending, exhaustion, or a propagated
member panic, and the loop never falls through silently. -/
theorem C7_termination (st : FuturesUnordered α) (hwf : WF st) (hns : NoSelfWake st) :
    ∃ out, poll_next (st.readyQueue.length + 1) st = some out :=
  poll_next_terminates_of_no_selfwake hwf hns

/-- Witness for C7 at the empty collection, which trivially has no
self-waking member. -/
theorem C7_witness :
    WF (new : FuturesUnordered Nat) ∧ NoSelfWake (new : FuturesUnordered Nat) ∧
    ∃ out, poll_next 1 (new : FuturesUnordered Nat) = some out :=
  ⟨wf_new, fun _ _ _ _ hn _ => Option.noConfusion hn,
    C7_termination new wf_new (fun _ _ _ _ hn _ => Option.noConfusion hn)⟩

end FuturesUnordered
